import Mathlib

/-!
Shallow embedding of the upload / random-string / slug routines of the
`gorigumi` toolkit (`tools.go`), together with theorems settling the
specification claims about them.

Conventions of the embedding:
* Go strings are Lean `String`s, byte buffers are `List ℕ` (each entry a byte).
* The stream of primes drawn from `crypto/rand.Prime` inside
  `GenerateRandomString` is an explicit parameter `ps : ℕ → ℕ`; `p.Uint64()`
  is modelled by reduction modulo `2 ^ 64`.
* The file system is an explicit association list from paths to contents;
  creating a file and copying bytes into it prepends an entry.
* External collaborators that are not part of the repository (the multipart
  parser, the content sniffer, path joining) are modelled from the
  specification's contracts for them (spec §4.1 and §6); each such definition
  says so in its doc comment.
-/

set_option maxRecDepth 16000

deriving instance DecidableEq for Except

namespace Gorigumi

/-- The constant `randomStringSource` of `tools.go` (lines 17-20): the
alphabet used by `GenerateRandomString`. -/
def randomStringSource : String :=
  "abcdefghijklmnopqrstuvwxyzABCDEFGHIJKLMNOPQRSTUVWXYZ0123456789_"

/-- The alphabet as a list of characters (the Go code converts the source
string to a `[]rune` before indexing). -/
def sourceChars : List Char := randomStringSource.data

/-- Embedding of `GenerateRandomString` (`tools.go` lines 51-60).  The Go
code draws, for each output position, a prime `p` from
`rand.Prime(rand.Reader, len(r))` (a 63-bit prime, since the rune alphabet
has 63 entries), takes `x := p.Uint64()` and emits `r[x % uint64(len(r))]`.
The primes drawn are supplied here as the stream `ps`; `Uint64` truncation
is `% 2 ^ 64`. -/
def generateRandomString (ps : ℕ → ℕ) (n : ℕ) : String :=
  String.mk ((List.range n).map fun i =>
    sourceChars.get ⟨ps i % 2 ^ 64 % sourceChars.length, Nat.mod_lt _ (by decide)⟩)

/-- The constant `defaultMaxFileSize` of `tools.go` (line 24):
`512 * 1024 * 1024` bytes. -/
def defaultMaxFileSize : Int := 512 * 1024 * 1024

/-- The `Tools` struct of `tools.go` (lines 29-40). -/
structure Tools where
  MaxFileSize : Int
  AllowedFileTypes : List String
  MaxJSONSize : Int
  AllowUnknownFields : Bool
deriving DecidableEq, Repr

/-- `New` (`tools.go` lines 43-45) returns the zero value of `Tools`. -/
def New : Tools := { MaxFileSize := 0, AllowedFileTypes := [],
                     MaxJSONSize := 0, AllowUnknownFields := false }

/-- The `UploadedFile` struct of `tools.go` (lines 64-68). -/
structure UploadedFile where
  OriginalFileName : String
  NewFileName : String
  FileSize : Int
deriving DecidableEq, Repr

/-- One part of a multipart form: Go's `*multipart.FileHeader` restricted to
what `uploadCheck` uses — the declared file name and the part's bytes. -/
structure FileHeader where
  Filename : String
  content : List ℕ
deriving DecidableEq, Repr

instance : Inhabited FileHeader := ⟨⟨"", []⟩⟩

/-- The file system visible to the upload path: an association list from
created paths to the bytes copied into them (most recent write first). -/
abbrev Fs := List (String × List ℕ)

/-- The buffer produced by `buff := make([]byte, 512)` followed by
`inFile.Read(buff)` (`tools.go` lines 164-165): the first
`min 512 (length c)` bytes of the part, with the remaining buffer cells
still holding their zero initialisation. -/
def readBuff512 (c : List ℕ) : List ℕ :=
  c.take 512 ++ List.replicate (512 - c.length) 0

/-- Modelled from the spec: §4.1 says content sniffing must replicate the
standard byte-signature rules used by HTTP stacks (`http.DetectContentType`
of Go's standard library, which is not part of this repository): an ordered
list of magic-byte patterns, a text check, and the fallback
`application/octet-stream`.  A byte is "binary" exactly when it lies in
0x00-0x08, 0x0B, 0x0E-0x1A or 0x1C-0x1F (the sniffing standard's set). -/
def isBinaryByte (b : ℕ) : Bool :=
  b ≤ 8 || b = 11 || (14 ≤ b && b ≤ 26) || (28 ≤ b && b ≤ 31)

/-- Decides whether `p` is a leading fragment of `l`. -/
def leadsList : List ℕ → List ℕ → Bool
  | [], _ => true
  | _ :: _, [] => false
  | a :: as, b :: bs => a == b && leadsList as bs

/-- PNG magic bytes `\x89PNG\r\n\x1a\n` (spec §4.1). -/
def pngSig : List ℕ := [0x89, 0x50, 0x4E, 0x47, 0x0D, 0x0A, 0x1A, 0x0A]

/-- JPEG magic bytes `\xFF\xD8\xFF` (spec §4.1). -/
def jpegSig : List ℕ := [0xFF, 0xD8, 0xFF]

/-- Modelled from the spec: the content-sniffing collaborator of §4.1
(`http.DetectContentType`): check byte signatures (PNG, JPEG here), then
"text/plain; charset=utf-8" for content that looks like valid text, with
fallback "application/octet-stream". -/
def detectContentType (data : List ℕ) : String :=
  if leadsList pngSig data then "image/png"
  else if leadsList jpegSig data then "image/jpeg"
  else if data.all (fun b => !isBinaryByte b) then "text/plain; charset=utf-8"
  else "application/octet-stream"

/-- Simple character-wise lowercasing of a string (the model of both
`strings.ToLower` and the folding inside `strings.EqualFold`). -/
def lowerStr (s : String) : String := String.mk (s.data.map Char.toLower)

/-- Embedding of `strings.EqualFold` as used on MIME type strings
(`tools.go` line 175): case-insensitive equality via simple case mapping. -/
def eqFold (a b : String) : Bool := lowerStr a == lowerStr b

/-- Helper for `fileExt`: walks the reversed name, accumulating characters
until the final dot (returning the extension including the dot) or a path
separator / the start of the string (returning the empty extension). -/
def fileExtAux : List Char → List Char → List Char
  | [], _ => []
  | c :: cs, acc =>
    if c = '/' then []
    else if c = '.' then '.' :: acc
    else fileExtAux cs (c :: acc)

/-- Embedding of `filepath.Ext` (Go standard library, as called on
`hdr.Filename` in `tools.go` line 191): the suffix of the final path element
beginning at its final dot, or `""` if that element has no dot. -/
def fileExt (s : String) : String := String.mk (fileExtAux s.data.reverse [])

/-- Modelled from the spec: the output-boundary path joining of §6
(`filepath.Join`), modelled as separator concatenation. -/
def joinPath (dir name : String) : String := dir ++ "/" ++ name

/-- The error values produced by the upload path, by kind:
`ioErr msg` is an error forwarded verbatim from an open/read/seek/
create/copy primitive (spec §7 `FilesystemError`; the read of an empty part
yields `ioErr "EOF"`), `typeNotAllowed` is `errors.New("file type is not
allowed")` (`tools.go` line 182), and `tooBig` is the distinct size error
`errors.New("the uploaded files are too big")` / `("the uploaded file is too
big")` (`tools.go` lines 93 and 133). -/
inductive UploadErr where
  | ioErr (msg : String)
  | typeNotAllowed
  | tooBig
deriving DecidableEq, Repr

/-- Shift a prime stream past the `k` values consumed so far. -/
def streamDrop (ps : ℕ → ℕ) (k : ℕ) : ℕ → ℕ := fun i => ps (i + k)

/-- Embedding of `uploadCheck` (`tools.go` lines 152-212).  Steps, in the
order of the source: open the part (always succeeds for a parsed part);
read up to 512 bytes into a zeroed buffer — Go's `Read` returns `io.EOF`
for an empty part, which the code propagates; sniff the content type from
the whole 512-byte buffer; check it against `t.AllowedFileTypes` with
`strings.EqualFold`, also matching a literal `"*"` entry, but only when the
list is non-empty; reject with `typeNotAllowed` otherwise; seek back; pick
the stored name (`fmt.Sprintf("%s_%s", t.GenerateRandomString(32),
filepath.Ext(hdr.Filename))` when renaming, else the original name);
create the destination file and copy the whole content into it.
Returns the `Except` result, the file system after the call, and the
remaining prime stream. -/
def uploadCheck (t : Tools) (hdr : FileHeader) (uploadDir : String)
    (renameFile : Bool) (ps : ℕ → ℕ) (fs : Fs) :
    Except UploadErr UploadedFile × Fs × (ℕ → ℕ) :=
  if hdr.content = [] then
    (Except.error (UploadErr.ioErr "EOF"), fs, ps)
  else
    let fileType := detectContentType (readBuff512 hdr.content)
    let allowed := decide (t.AllowedFileTypes.length > 0) &&
      t.AllowedFileTypes.any (fun v => eqFold v fileType || eqFold v "*")
    if !allowed then
      (Except.error UploadErr.typeNotAllowed, fs, ps)
    else
      let newName := if renameFile
        then generateRandomString ps 32 ++ "_" ++ fileExt hdr.Filename
        else hdr.Filename
      let ps' := if renameFile then streamDrop ps 32 else ps
      let file : UploadedFile :=
        { OriginalFileName := hdr.Filename
          NewFileName := newName
          FileSize := hdr.content.length }
      (Except.ok file, (joinPath uploadDir newName, hdr.content) :: fs, ps')

/-- Modelled from the spec: the input boundary of §6 — an HTTP request
carrying a parseable multipart body.  `bodySize` is the total decoded
multipart payload in bytes; `formFiles` is `r.MultipartForm.File` after a
successful parse, one group of file headers per form field, in the order
the decoder yields them. -/
structure Request where
  bodySize : ℕ
  formFiles : List (List FileHeader)

/-- Modelled from the spec: §6a — the parser collaborator
(`r.ParseMultipartForm(limit)`) parses with a byte-size ceiling, "failing
distinctly when exceeded".  Returns `true` exactly when parsing succeeds. -/
def parseMultipartForm (r : Request) (limit : Int) : Bool :=
  decide ((r.bodySize : Int) ≤ limit)

/-- The loop of `UploadFiles` (`tools.go` lines 96-104) over the file
headers (both `range` loops flattened, in decoder order): run `uploadCheck`
on each header, stop at the first error returning the records accumulated
so far together with it, otherwise append the new record. -/
def processFiles (t : Tools) (uploadDir : String) (renameFile : Bool) :
    List FileHeader → Fs → (ℕ → ℕ) → List UploadedFile →
    List UploadedFile × Option UploadErr × Fs × (ℕ → ℕ)
  | [], fs, ps, acc => (acc, none, fs, ps)
  | hdr :: rest, fs, ps, acc =>
    match uploadCheck t hdr uploadDir renameFile ps fs with
    | (Except.error e, fs', ps') => (acc, some e, fs', ps')
    | (Except.ok f, fs', ps') =>
      processFiles t uploadDir renameFile rest fs' ps' (acc ++ [f])

/-- The observable outcome of a `UploadFiles` call: the `Tools` value after
the call (the Go method has a pointer receiver and writes `t.MaxFileSize`),
the returned slice of records, the returned error, and the file system. -/
structure UploadResult where
  tools : Tools
  files : List UploadedFile
  err : Option UploadErr
  fs : Fs
deriving DecidableEq, Repr

/-- Embedding of `UploadFiles` (`tools.go` lines 75-107): resolve the
variadic `rename` (default `true`); install `defaultMaxFileSize` when
`t.MaxFileSize == 0`; create the target directory (always succeeds in the
model); parse the multipart body against `t.MaxFileSize`, mapping any parse
failure to the distinct error `errors.New("the uploaded files are too
big")` and returning a nil slice; then run the loop over all file headers. -/
def UploadFiles (t : Tools) (r : Request) (uploadDir : String)
    (rename : List Bool) (ps : ℕ → ℕ) (fs : Fs) : UploadResult :=
  let renameFile := rename.headD true
  let t' := if t.MaxFileSize = 0 then { t with MaxFileSize := defaultMaxFileSize } else t
  if !parseMultipartForm r t'.MaxFileSize then
    { tools := t', files := [], err := some UploadErr.tooBig, fs := fs }
  else
    let res := processFiles t' uploadDir renameFile r.formFiles.flatten fs ps []
    { tools := t', files := res.1, err := res.2.1, fs := res.2.2.1 }

/-- The observable outcome of a `UploadFile` call. -/
structure UploadOneResult where
  tools : Tools
  file : Option UploadedFile
  err : Option UploadErr
  fs : Fs
deriving DecidableEq, Repr

/-- The loop of `UploadFile` (`tools.go` lines 136-141): for each form
field, run `uploadCheck` on the first header of its group, returning
(nil, err) at the first error, otherwise remembering only the latest
record.  Go would panic indexing `fileHeader[0]` of an empty group; the
multipart parser never produces one, and the model forwards an `ioErr` in
that unreachable case. -/
def processFirstFiles (t : Tools) (uploadDir : String) (renameFile : Bool) :
    List (List FileHeader) → Fs → (ℕ → ℕ) → Option UploadedFile →
    Option UploadedFile × Option UploadErr × Fs × (ℕ → ℕ)
  | [], fs, ps, cur => (cur, none, fs, ps)
  | [] :: _, fs, ps, _ =>
    (none, some (UploadErr.ioErr "index out of range"), fs, ps)
  | (hdr :: _) :: rest, fs, ps, _ =>
    match uploadCheck t hdr uploadDir renameFile ps fs with
    | (Except.error e, fs', ps') => (none, some e, fs', ps')
    | (Except.ok f, fs', ps') =>
      processFirstFiles t uploadDir renameFile rest fs' ps' (some f)

/-- Embedding of `UploadFile` (`tools.go` lines 115-145): identical
preamble to `UploadFiles` (including the `t.MaxFileSize` write and the
distinct "too big" parse error, here `errors.New("the uploaded file is too
big")`), then the single-file loop. -/
def UploadFile (t : Tools) (r : Request) (uploadDir : String)
    (rename : List Bool) (ps : ℕ → ℕ) (fs : Fs) : UploadOneResult :=
  let renameFile := rename.headD true
  let t' := if t.MaxFileSize = 0 then { t with MaxFileSize := defaultMaxFileSize } else t
  if !parseMultipartForm r t'.MaxFileSize then
    { tools := t', file := none, err := some UploadErr.tooBig, fs := fs }
  else
    let res := processFirstFiles t' uploadDir renameFile r.formFiles fs ps none
    { tools := t', file := res.1, err := res.2.1, fs := res.2.2.1 }

/-- The character class `[a-z\d]` of the slug regex (`tools.go` line 251). -/
def isSlugChar (c : Char) : Bool :=
  ('a' ≤ c && c ≤ 'z') || ('0' ≤ c && c ≤ '9')

/-- Worker for `replaceRuns`.  The flag records whether the previous
character belonged to a run of characters outside `[a-z0-9]` whose single
replacement hyphen has already been emitted. -/
def replaceRunsAux : Bool → List Char → List Char
  | _, [] => []
  | inRun, c :: cs =>
    if isSlugChar c then c :: replaceRunsAux false cs
    else if inRun then replaceRunsAux true cs
    else '-' :: replaceRunsAux true cs

/-- Embedding of `regex.ReplaceAllString(s, "-")` for the regex
`[^a-z\d]+` (`tools.go` lines 251-254): each maximal run of characters
outside `[a-z0-9]` becomes a single hyphen. -/
def replaceRuns (l : List Char) : List Char := replaceRunsAux false l

/-- Embedding of `strings.Trim(·, "-")` (`tools.go` line 253): remove
leading and trailing hyphens. -/
def trimDash (l : List Char) : List Char :=
  ((l.dropWhile fun c => c = '-').reverse.dropWhile fun c => c = '-').reverse

/-- Embedding of `ConvertToSlug` (`tools.go` lines 247-262): error
`"string is empty"` for empty input; otherwise lowercase, replace the runs
matched by `[^a-z\d]+` with `"-"`, trim hyphens, and error
`"not valid string characters"` if nothing remains. -/
def ConvertToSlug (s : String) : Except String String :=
  if s = "" then Except.error "string is empty"
  else
    let slug := String.mk (trimDash (replaceRuns (lowerStr s).data))
    if slug.length = 0 then Except.error "not valid string characters"
    else Except.ok slug

/-- Fast modular exponentiation with explicit fuel (one unit per binary
digit of the exponent), used to check the Lucas primality certificate of a
concrete 63-bit prime inside the kernel. -/
def powMod : ℕ → ℕ → ℕ → ℕ → ℕ
  | 0, _, _, n => 1 % n
  | fuel + 1, a, k, n =>
    if k = 0 then 1 % n
    else
      let h := powMod fuel (a * a % n) (k / 2) n
      if k % 2 = 1 then h * a % n else h

/-- A concrete 63-bit prime, `2 ^ 53 * 3 ^ 6 + 1`, used to witness the
prime stream drawn by `GenerateRandomString`. -/
def p63 : ℕ := 6566248256706183169

/-- The `Tools` value after the `t.MaxFileSize == 0` default installation of
`tools.go` lines 83-85 / 123-125. -/
def withDefaultSize (t : Tools) : Tools :=
  if t.MaxFileSize = 0 then { t with MaxFileSize := defaultMaxFileSize } else t

example : generateRandomString (fun _ => 0) 3 = "aaa" := by decide

example : (generateRandomString (fun i => i) 5) = "abcde" := by decide

example : fileExt "img.png" = ".png" := by decide
example : fileExt "archive.tar.gz" = ".gz" := by decide
example : fileExt "noext" = "" := by decide
example : fileExt "dir.d/noext" = "" := by decide

example : ConvertToSlug "Hello, World!" = Except.ok "hello-world" := by decide
example : ConvertToSlug "12345 67890" = Except.ok "12345-67890" := by decide
example : ConvertToSlug "" = Except.error "string is empty" := by decide
example : ConvertToSlug "你好世界" = Except.error "not valid string characters" := by
  decide

/-- `powMod` computes powers in `ZMod n` whenever the fuel covers the
binary length of the exponent. -/
theorem powMod_cast (fuel : ℕ) : ∀ a k n : ℕ, k < 2 ^ fuel →
    ((powMod fuel a k n : ℕ) : ZMod n) = (a : ZMod n) ^ k := by
  induction fuel with
  | zero =>
    intro a k n hk
    have hk0 : k = 0 := by simpa using Nat.lt_one_iff.mp (by simpa using hk)
    subst hk0
    simp [powMod, ZMod.natCast_mod]
  | succ f ih =>
    intro a k n hk
    by_cases h0 : k = 0
    · subst h0; simp [powMod, ZMod.natCast_mod]
    · have hk2 : k / 2 < 2 ^ f := by
        have h2 : (0:ℕ) < 2 := by norm_num
        have := (Nat.div_lt_iff_lt_mul h2).mpr
          (by rw [pow_succ] at hk; exact hk)
        exact this
      have ihh := ih (a * a % n) (k / 2) n hk2
      have hsq : (((a * a % n : ℕ)) : ZMod n) = (a : ZMod n) * (a : ZMod n) := by
        rw [ZMod.natCast_mod, Nat.cast_mul]
      rw [hsq] at ihh
      have hpow : ((powMod f (a * a % n) (k / 2) n : ℕ) : ZMod n)
          = (a : ZMod n) ^ (2 * (k / 2)) := by
        rw [ihh, ← sq, ← pow_mul]
      by_cases hpar : k % 2 = 1
      · have hkeq : 2 * (k / 2) + 1 = k := by omega
        simp only [powMod, if_neg h0, if_pos hpar]
        rw [ZMod.natCast_mod, Nat.cast_mul, hpow, ← pow_succ, hkeq]
      · have hkeq : 2 * (k / 2) = k := by omega
        simp only [powMod, if_neg h0, if_neg hpar]
        rw [hpow, hkeq]

theorem p63_sub_one : p63 - 1 = 2 ^ 53 * 3 ^ 6 := by norm_num [p63]

theorem p63_range : 2 ^ 62 ≤ p63 ∧ p63 < 2 ^ 63 := by norm_num [p63]

/-- Lucas primality certificate for `p63` with witness `7`:
`7 ^ (p63 - 1) = 1` while `7 ^ ((p63 - 1) / 2) ≠ 1` and
`7 ^ ((p63 - 1) / 3) ≠ 1` in `ZMod p63`. -/
theorem p63_prime : Nat.Prime p63 := by
  have hbound : p63 - 1 < 2 ^ 64 := by norm_num [p63]
  have hcast : ∀ x : ℕ, x < p63 → ((x : ℕ) : ZMod p63) = 1 → x = 1 := by
    intro x hx hx1
    rw [show (1 : ZMod p63) = ((1 : ℕ) : ZMod p63) from (Nat.cast_one).symm] at hx1
    have hmod := (ZMod.natCast_eq_natCast_iff x 1 p63).mp hx1
    unfold Nat.ModEq at hmod
    rw [Nat.mod_eq_of_lt hx, Nat.mod_eq_of_lt (by norm_num [p63])] at hmod
    exact hmod
  refine lucas_primality p63 ((7 : ℕ) : ZMod p63) ?_ ?_
  · rw [← powMod_cast 64 7 (p63 - 1) p63 hbound]
    rw [show powMod 64 7 (p63 - 1) p63 = 1 from by decide]
    exact Nat.cast_one
  · intro q hq hdvd
    have hq23 : q = 2 ∨ q = 3 := by
      rw [p63_sub_one] at hdvd
      rcases (Nat.Prime.dvd_mul hq).mp hdvd with h | h
      · exact Or.inl ((Nat.prime_dvd_prime_iff_eq hq Nat.prime_two).mp
          (hq.dvd_of_dvd_pow h))
      · exact Or.inr ((Nat.prime_dvd_prime_iff_eq hq Nat.prime_three).mp
          (hq.dvd_of_dvd_pow h))
    rcases hq23 with h2 | h3
    · subst h2
      rw [← powMod_cast 64 7 ((p63 - 1) / 2) p63 (by omega)]
      rw [show powMod 64 7 ((p63 - 1) / 2) p63 = 6566248256706183168 from by decide]
      intro hcontra
      have := hcast 6566248256706183168 (by norm_num [p63]) hcontra
      norm_num at this
    · subst h3
      rw [← powMod_cast 64 7 ((p63 - 1) / 3) p63 (by omega)]
      rw [show powMod 64 7 ((p63 - 1) / 3) p63 = 4273806564052736575 from by decide]
      intro hcontra
      have := hcast 4273806564052736575 (by norm_num [p63]) hcontra
      norm_num at this

theorem UploadFiles_tools (t : Tools) (r : Request) (dir : String)
    (rename : List Bool) (ps : ℕ → ℕ) (fs : Fs) :
    (UploadFiles t r dir rename ps fs).tools = withDefaultSize t := by
  simp only [UploadFiles, withDefaultSize]
  split <;> split <;> rfl

theorem UploadFile_tools (t : Tools) (r : Request) (dir : String)
    (rename : List Bool) (ps : ℕ → ℕ) (fs : Fs) :
    (UploadFile t r dir rename ps fs).tools = withDefaultSize t := by
  simp only [UploadFile, withDefaultSize]
  split <;> split <;> rfl

/-- Every character of a generated random string belongs to the source
alphabet. -/
theorem generateRandomString_mem_sourceChars (ps : ℕ → ℕ) (n : ℕ) :
    ∀ c ∈ (generateRandomString ps n).data, c ∈ sourceChars := by
  intro c hc
  simp only [generateRandomString] at hc
  rcases List.mem_map.mp hc with ⟨i, _, rfl⟩
  exact List.get_mem _ _ _

/-- A generated random string has exactly the requested length. -/
theorem generateRandomString_length (ps : ℕ → ℕ) (n : ℕ) :
    (generateRandomString ps n).length = n := by
  simp [generateRandomString, String.length]

/-- C6 (amended: the alphabet has 63 characters, not 64): for every prime
stream and every `n ≥ 0`, `GenerateRandomString` returns a string of
exactly length `n`, every character of which belongs to the alphabet
`randomStringSource` of lowercase letters, uppercase letters, digits, and
underscore. -/
theorem C6_random_string_length_and_alphabet :
    ∀ (ps : ℕ → ℕ) (n : ℕ),
      (generateRandomString ps n).length = n ∧
      ∀ c ∈ (generateRandomString ps n).data,
        c ∈ sourceChars ∧ (c.isLower ∨ c.isUpper ∨ c.isDigit ∨ c = '_') := by
  intro ps n
  have hall : ∀ c ∈ sourceChars, c.isLower ∨ c.isUpper ∨ c.isDigit ∨ c = '_' := by
    decide
  refine ⟨generateRandomString_length ps n, ?_⟩
  intro c hc
  have hmem : c ∈ sourceChars := generateRandomString_mem_sourceChars ps n c hc
  exact ⟨hmem, hall c hmem⟩

/-- C6 witness: the theorem applied to the all-zero stream at `n = 1` and
the character `'a'` of its output. -/
theorem C6_random_string_length_and_alphabet_witness :
    (generateRandomString (fun _ => 0) 1).length = 1 ∧
    ('a' ∈ sourceChars ∧ ('a'.isLower ∨ 'a'.isUpper ∨ 'a'.isDigit ∨ 'a' = '_')) := by
  have h := C6_random_string_length_and_alphabet (fun _ => 0) 1
  exact ⟨h.1, h.2 'a' (by decide)⟩

/-- C6 counterexample: the claim calls the alphabet 64-character, but
`randomStringSource` (26 lowercase + 26 uppercase + 10 digits + underscore)
has 63 characters. -/
theorem C6_random_string_alphabet_cex :
    randomStringSource.length = 63 ∧ ¬ randomStringSource.length = 64 := by decide

/-- C2 (amended): a call to `UploadFiles` or `UploadFile` leaves
`AllowedFileTypes` (and the JSON configuration fields) of the `Tools`
instance unchanged, and leaves `MaxFileSize` unchanged unless it was `0`,
in which case the call permanently sets it to the default 512 MiB. -/
theorem C2_upload_config_mutation :
    ∀ (t : Tools) (r : Request) (dir : String) (rename : List Bool)
      (ps : ℕ → ℕ) (fs : Fs),
      ((UploadFiles t r dir rename ps fs).tools.AllowedFileTypes = t.AllowedFileTypes ∧
       (UploadFiles t r dir rename ps fs).tools.MaxJSONSize = t.MaxJSONSize ∧
       (UploadFiles t r dir rename ps fs).tools.AllowUnknownFields = t.AllowUnknownFields ∧
       (UploadFiles t r dir rename ps fs).tools.MaxFileSize =
         (if t.MaxFileSize = 0 then defaultMaxFileSize else t.MaxFileSize)) ∧
      ((UploadFile t r dir rename ps fs).tools.AllowedFileTypes = t.AllowedFileTypes ∧
       (UploadFile t r dir rename ps fs).tools.MaxJSONSize = t.MaxJSONSize ∧
       (UploadFile t r dir rename ps fs).tools.AllowUnknownFields = t.AllowUnknownFields ∧
       (UploadFile t r dir rename ps fs).tools.MaxFileSize =
         (if t.MaxFileSize = 0 then defaultMaxFileSize else t.MaxFileSize)) := by
  intro t r dir rename ps fs
  rw [UploadFiles_tools, UploadFile_tools]
  unfold withDefaultSize
  constructor <;> exact (by split <;> simp_all)

/-- C2 counterexample: on a fresh `Tools` (whose `MaxFileSize` is `0`), the
call returns with `MaxFileSize` changed to `536870912`, so the
configuration fields are not all left unchanged. -/
theorem C2_upload_config_mutation_cex :
    New.MaxFileSize = 0 ∧
    (UploadFiles New ⟨0, []⟩ "uploads" [] (fun _ => 0) []).tools.MaxFileSize
      = 536870912 := by decide

/-- The `allowed` flag computed by `uploadCheck` (`tools.go` lines 170-179)
is true exactly when some entry of the list case-folds to the sniffed type
or to the wildcard; the `len > 0` guard is subsumed by the existential. -/
theorem allowed_flag_iff (l : List String) (ft : String) :
    (decide (l.length > 0) && l.any fun v => eqFold v ft || eqFold v "*") = true ↔
      ∃ v ∈ l, eqFold v ft = true ∨ eqFold v "*" = true := by
  cases l with
  | nil => simp
  | cons a as => simp [List.any_eq_true]

/-- C1 (amended): a non-empty file is rejected by `uploadCheck` with the
`file type is not allowed` error exactly when no entry of the allowed-type
set matches the sniffed content type case-insensitively and no entry is the
wildcard `"*"`; in particular, when the allowed-type set is empty every
file is rejected. -/
theorem C1_type_check_characterisation (t : Tools) (hdr : FileHeader)
    (dir : String) (rn : Bool) (ps : ℕ → ℕ) (fs : Fs) (h : hdr.content ≠ []) :
    (uploadCheck t hdr dir rn ps fs).1 = Except.error UploadErr.typeNotAllowed ↔
      ¬ ∃ v ∈ t.AllowedFileTypes,
          eqFold v (detectContentType (readBuff512 hdr.content)) = true ∨
          eqFold v "*" = true := by
  rw [← allowed_flag_iff t.AllowedFileTypes (detectContentType (readBuff512 hdr.content))]
  simp only [uploadCheck, if_neg h]
  rcases hb : (decide (t.AllowedFileTypes.length > 0) &&
      t.AllowedFileTypes.any fun v =>
        eqFold v (detectContentType (readBuff512 hdr.content)) || eqFold v "*") with _ | _
  · simp
  · simp

/-- C1 witness: a text file checked against an allowed set containing only
`image/png` is rejected, matching the characterisation. -/
theorem C1_type_check_characterisation_witness :
    (uploadCheck ⟨0, ["image/png"], 0, false⟩ ⟨"a.bin", [65]⟩ "uploads" true
        (fun _ => 0) []).1 = Except.error UploadErr.typeNotAllowed := by
  exact (C1_type_check_characterisation ⟨0, ["image/png"], 0, false⟩ ⟨"a.bin", [65]⟩
    "uploads" true (fun _ => 0) [] (by decide)).mpr (by decide)

/-- C1 counterexample: with an empty allowed-type set the code rejects
every file (the claim says every file passes the type check). -/
theorem C1_type_check_cex :
    New.AllowedFileTypes = [] ∧
    (uploadCheck New ⟨"a.txt", [65]⟩ "uploads" true (fun _ => 0) []).1 =
      Except.error UploadErr.typeNotAllowed := by decide

/-- C7: for every non-empty file whose sniffed content type matches no
entry of the allowed set (and no wildcard entry exists), `uploadCheck`
fails with the `file type is not allowed` error, creates no destination
file and copies no bytes: the file system and the prime stream are returned
unchanged. -/
theorem C7_disallowed_writes_nothing (t : Tools) (hdr : FileHeader)
    (dir : String) (rn : Bool) (ps : ℕ → ℕ) (fs : Fs) (hne : hdr.content ≠ [])
    (hnot : ¬ ∃ v ∈ t.AllowedFileTypes,
        eqFold v (detectContentType (readBuff512 hdr.content)) = true ∨
        eqFold v "*" = true) :
    (uploadCheck t hdr dir rn ps fs).1 = Except.error UploadErr.typeNotAllowed ∧
    (uploadCheck t hdr dir rn ps fs).2.1 = fs ∧
    (uploadCheck t hdr dir rn ps fs).2.2 = ps := by
  have hb : (decide (t.AllowedFileTypes.length > 0) &&
      t.AllowedFileTypes.any fun v =>
        eqFold v (detectContentType (readBuff512 hdr.content)) || eqFold v "*") = false := by
    rcases hb : (decide (t.AllowedFileTypes.length > 0) &&
        t.AllowedFileTypes.any fun v =>
          eqFold v (detectContentType (readBuff512 hdr.content)) || eqFold v "*") with _ | _
    · rfl
    · exact absurd ((allowed_flag_iff _ _).mp hb) hnot
  simp [uploadCheck, if_neg hne, hb]

/-- C7 witness: a plain byte file against an `image/png`-only policy is
rejected and the file system is untouched. -/
theorem C7_disallowed_writes_nothing_witness :
    (uploadCheck ⟨0, ["image/png"], 0, false⟩ ⟨"doc.bin", [66]⟩ "uploads" true
        (fun _ => 0) [("uploads/old.txt", [1])]).1 =
      Except.error UploadErr.typeNotAllowed ∧
    (uploadCheck ⟨0, ["image/png"], 0, false⟩ ⟨"doc.bin", [66]⟩ "uploads" true
        (fun _ => 0) [("uploads/old.txt", [1])]).2.1 = [("uploads/old.txt", [1])] ∧
    (uploadCheck ⟨0, ["image/png"], 0, false⟩ ⟨"doc.bin", [66]⟩ "uploads" true
        (fun _ => 0) [("uploads/old.txt", [1])]).2.2 = (fun _ => 0) := by
  exact C7_disallowed_writes_nothing ⟨0, ["image/png"], 0, false⟩ ⟨"doc.bin", [66]⟩
    "uploads" true (fun _ => 0) [("uploads/old.txt", [1])] (by decide) (by decide)

/-- Unfolding of one step of the `UploadFiles` loop in terms of the
projections of the `uploadCheck` result. -/
theorem processFiles_cons (t : Tools) (dir : String) (rn : Bool)
    (h : FileHeader) (rest : List FileHeader) (fs : Fs) (ps : ℕ → ℕ)
    (acc : List UploadedFile) :
    processFiles t dir rn (h :: rest) fs ps acc =
      match (uploadCheck t h dir rn ps fs).1 with
      | Except.error e =>
        (acc, some e, (uploadCheck t h dir rn ps fs).2.1, (uploadCheck t h dir rn ps fs).2.2)
      | Except.ok f =>
        processFiles t dir rn rest (uploadCheck t h dir rn ps fs).2.1
          (uploadCheck t h dir rn ps fs).2.2 (acc ++ [f]) := by
  rcases huc : uploadCheck t h dir rn ps fs with ⟨res, fs', ps'⟩
  cases res <;> simp [processFiles, huc]

/-- Unfolding of one step of the `UploadFile` loop (non-empty group). -/
theorem processFirstFiles_cons (t : Tools) (dir : String) (rn : Bool)
    (h : FileHeader) (hs : List FileHeader) (rest : List (List FileHeader))
    (fs : Fs) (ps : ℕ → ℕ) (cur : Option UploadedFile) :
    processFirstFiles t dir rn ((h :: hs) :: rest) fs ps cur =
      match (uploadCheck t h dir rn ps fs).1 with
      | Except.error e =>
        (none, some e, (uploadCheck t h dir rn ps fs).2.1, (uploadCheck t h dir rn ps fs).2.2)
      | Except.ok f =>
        processFirstFiles t dir rn rest (uploadCheck t h dir rn ps fs).2.1
          (uploadCheck t h dir rn ps fs).2.2 (some f) := by
  rcases huc : uploadCheck t h dir rn ps fs with ⟨res, fs', ps'⟩
  cases res <;> simp [processFirstFiles, huc]

/-- `uploadCheck` never produces the "too big" error: its only errors are
forwarded I/O errors and the type rejection. -/
theorem uploadCheck_ne_tooBig (t : Tools) (hdr : FileHeader) (dir : String)
    (rn : Bool) (ps : ℕ → ℕ) (fs : Fs) :
    (uploadCheck t hdr dir rn ps fs).1 ≠ Except.error UploadErr.tooBig := by
  simp only [uploadCheck]
  split
  · simp
  · split <;> simp

/-- The `UploadFiles` loop never produces the "too big" error. -/
theorem processFiles_ne_tooBig (t : Tools) (dir : String) (rn : Bool) :
    ∀ (hdrs : List FileHeader) (fs : Fs) (ps : ℕ → ℕ) (acc : List UploadedFile),
      (processFiles t dir rn hdrs fs ps acc).2.1 ≠ some UploadErr.tooBig := by
  intro hdrs
  induction hdrs with
  | nil => intro fs ps acc; simp [processFiles]
  | cons h rest ih =>
    intro fs ps acc
    rw [processFiles_cons]
    have hne := uploadCheck_ne_tooBig t h dir rn ps fs
    cases hE : (uploadCheck t h dir rn ps fs).1 with
    | error e =>
      rw [hE] at hne
      simp only []
      intro hcontra
      apply hne
      rw [show e = UploadErr.tooBig from by
        simpa using congrArg (Option.getD · UploadErr.typeNotAllowed) hcontra]
    | ok f =>
      simp only []
      exact ih _ _ _

/-- The `UploadFile` loop never produces the "too big" error. -/
theorem processFirstFiles_ne_tooBig (t : Tools) (dir : String) (rn : Bool) :
    ∀ (groups : List (List FileHeader)) (fs : Fs) (ps : ℕ → ℕ)
      (cur : Option UploadedFile),
      (processFirstFiles t dir rn groups fs ps cur).2.1 ≠ some UploadErr.tooBig := by
  intro groups
  induction groups with
  | nil => intro fs ps cur; simp [processFirstFiles]
  | cons g rest ih =>
    intro fs ps cur
    cases g with
    | nil => simp [processFirstFiles]
    | cons h hs =>
      rw [processFirstFiles_cons]
      have hne := uploadCheck_ne_tooBig t h dir rn ps fs
      cases hE : (uploadCheck t h dir rn ps fs).1 with
      | error e =>
        rw [hE] at hne
        simp only []
        intro hcontra
        apply hne
        rw [show e = UploadErr.tooBig from by
          simpa using congrArg (Option.getD · UploadErr.typeNotAllowed) hcontra]
      | ok f =>
        simp only []
        exact ih _ _ _

/-- A failed parse (payload above the ceiling) makes `UploadFiles` return
the "too big" error with no records and an unchanged file system. -/
theorem UploadFiles_parse_fail (t : Tools) (r : Request) (dir : String)
    (rename : List Bool) (ps : ℕ → ℕ) (fs : Fs)
    (hp : ¬ (r.bodySize : Int) ≤ (withDefaultSize t).MaxFileSize) :
    UploadFiles t r dir rename ps fs =
      { tools := withDefaultSize t, files := [],
        err := some UploadErr.tooBig, fs := fs } := by
  simp [UploadFiles, withDefaultSize, parseMultipartForm] at hp ⊢
  split <;> simp_all

/-- A successful parse makes `UploadFiles` defer to the loop. -/
theorem UploadFiles_parse_ok (t : Tools) (r : Request) (dir : String)
    (rename : List Bool) (ps : ℕ → ℕ) (fs : Fs)
    (hp : (r.bodySize : Int) ≤ (withDefaultSize t).MaxFileSize) :
    UploadFiles t r dir rename ps fs =
      { tools := withDefaultSize t,
        files := (processFiles (withDefaultSize t) dir (rename.headD true)
          r.formFiles.flatten fs ps []).1,
        err := (processFiles (withDefaultSize t) dir (rename.headD true)
          r.formFiles.flatten fs ps []).2.1,
        fs := (processFiles (withDefaultSize t) dir (rename.headD true)
          r.formFiles.flatten fs ps []).2.2.1 } := by
  simp [UploadFiles, withDefaultSize, parseMultipartForm] at hp ⊢
  split <;> simp_all

/-- A failed parse makes `UploadFile` return the "too big" error. -/
theorem UploadFile_parse_fail (t : Tools) (r : Request) (dir : String)
    (rename : List Bool) (ps : ℕ → ℕ) (fs : Fs)
    (hp : ¬ (r.bodySize : Int) ≤ (withDefaultSize t).MaxFileSize) :
    UploadFile t r dir rename ps fs =
      { tools := withDefaultSize t, file := none,
        err := some UploadErr.tooBig, fs := fs } := by
  simp [UploadFile, withDefaultSize, parseMultipartForm] at hp ⊢
  split <;> simp_all

/-- A successful parse makes `UploadFile` defer to its loop. -/
theorem UploadFile_parse_ok (t : Tools) (r : Request) (dir : String)
    (rename : List Bool) (ps : ℕ → ℕ) (fs : Fs)
    (hp : (r.bodySize : Int) ≤ (withDefaultSize t).MaxFileSize) :
    UploadFile t r dir rename ps fs =
      { tools := withDefaultSize t,
        file := (processFirstFiles (withDefaultSize t) dir (rename.headD true)
          r.formFiles fs ps none).1,
        err := (processFirstFiles (withDefaultSize t) dir (rename.headD true)
          r.formFiles fs ps none).2.1,
        fs := (processFirstFiles (withDefaultSize t) dir (rename.headD true)
          r.formFiles fs ps none).2.2.1 } := by
  simp [UploadFile, withDefaultSize, parseMultipartForm] at hp ⊢
  split <;> simp_all

/-- C5: `UploadFiles`/`UploadFile` fail with the distinct "too big" size
error exactly when the decoded multipart payload exceeds the configured
maximum (512 MiB by default when the configured value is `0`); in that case
the failure happens during parsing, before any file is processed or
written (no records, file system unchanged); and the size error is a
different error value from every forwarded file-system error and from the
type rejection. -/
theorem C5_size_error (t : Tools) (r : Request) (dir : String)
    (rename : List Bool) (ps : ℕ → ℕ) (fs : Fs) :
    (((UploadFiles t r dir rename ps fs).err = some UploadErr.tooBig) ↔
        (r.bodySize : Int) > (withDefaultSize t).MaxFileSize) ∧
    ((r.bodySize : Int) > (withDefaultSize t).MaxFileSize →
        UploadFiles t r dir rename ps fs =
          { tools := withDefaultSize t, files := [],
            err := some UploadErr.tooBig, fs := fs }) ∧
    (((UploadFile t r dir rename ps fs).err = some UploadErr.tooBig) ↔
        (r.bodySize : Int) > (withDefaultSize t).MaxFileSize) ∧
    ((r.bodySize : Int) > (withDefaultSize t).MaxFileSize →
        UploadFile t r dir rename ps fs =
          { tools := withDefaultSize t, file := none,
            err := some UploadErr.tooBig, fs := fs }) ∧
    (∀ msg, UploadErr.tooBig ≠ UploadErr.ioErr msg) ∧
    UploadErr.tooBig ≠ UploadErr.typeNotAllowed ∧
    defaultMaxFileSize = 512 * 1024 * 1024 ∧
    (t.MaxFileSize = 0 → (withDefaultSize t).MaxFileSize = defaultMaxFileSize) := by
  by_cases hp : (r.bodySize : Int) ≤ (withDefaultSize t).MaxFileSize
  · refine ⟨?_, ?_, ?_, ?_, by intro msg; simp, by simp, rfl, ?_⟩
    · rw [UploadFiles_parse_ok t r dir rename ps fs hp]
      simp only []
      constructor
      · intro hcontra; exact absurd hcontra (processFiles_ne_tooBig _ _ _ _ _ _ _)
      · intro hgt; omega
    · intro hgt; omega
    · rw [UploadFile_parse_ok t r dir rename ps fs hp]
      simp only []
      constructor
      · intro hcontra; exact absurd hcontra (processFirstFiles_ne_tooBig _ _ _ _ _ _ _)
      · intro hgt; omega
    · intro hgt; omega
    · intro h0; simp [withDefaultSize, h0]
  · refine ⟨?_, ?_, ?_, ?_, by intro msg; simp, by simp, rfl, ?_⟩
    · rw [UploadFiles_parse_fail t r dir rename ps fs hp]
      simp only []
      constructor
      · intro _; omega
      · intro _; trivial
    · intro _; exact UploadFiles_parse_fail t r dir rename ps fs hp
    · rw [UploadFile_parse_fail t r dir rename ps fs hp]
      simp only []
      constructor
      · intro _; omega
      · intro _; trivial
    · intro _; exact UploadFile_parse_fail t r dir rename ps fs hp
    · intro h0; simp [withDefaultSize, h0]

/-- C5 witness: a payload one byte over the default ceiling on a fresh
`Tools` aborts the whole batch during parsing with the distinct size
error. -/
theorem C5_size_error_witness :
    UploadFiles New ⟨536870913, [[⟨"a.txt", [65]⟩]]⟩ "uploads" [] (fun _ => 0) [] =
      { tools := withDefaultSize New, files := [],
        err := some UploadErr.tooBig, fs := [] } ∧
    ((536870913 : ℕ) : Int) > (withDefaultSize New).MaxFileSize := by
  have h := C5_size_error New ⟨536870913, [[⟨"a.txt", [65]⟩]]⟩ "uploads" [] (fun _ => 0) []
  exact ⟨h.2.1 (by decide), by decide⟩

/-- Scanning characters that are neither dots nor separators yields no
extension. -/
theorem fileExtAux_clean (l : List Char) :
    ∀ acc, (∀ c ∈ l, c ≠ '.' ∧ c ≠ '/') → fileExtAux l acc = [] := by
  induction l with
  | nil => intro acc _; rfl
  | cons c cs ih =>
    intro acc hcl
    have hc := hcl c (List.mem_cons_self _ _)
    simp only [fileExtAux, if_neg hc.2, if_neg hc.1]
    exact ih _ fun x hx => hcl x (List.mem_cons_of_mem _ hx)

/-- Scanning a clean run followed by a dot returns the dot plus the run
reversed on top of the accumulator. -/
theorem fileExtAux_to_dot (l : List Char) :
    ∀ (rest acc : List Char), (∀ c ∈ l, c ≠ '.' ∧ c ≠ '/') →
      fileExtAux (l ++ '.' :: rest) acc = '.' :: (l.reverse ++ acc) := by
  induction l with
  | nil => intro rest acc _; simp [fileExtAux]
  | cons c cs ih =>
    intro rest acc hcl
    have hc := hcl c (List.mem_cons_self _ _)
    rw [List.cons_append]
    rw [show fileExtAux (c :: (cs ++ '.' :: rest)) acc
        = fileExtAux (cs ++ '.' :: rest) (c :: acc) from by
      simp [fileExtAux, if_neg hc.2, if_neg hc.1]]
    rw [ih rest (c :: acc) fun x hx => hcl x (List.mem_cons_of_mem _ hx)]
    simp

/-- A computed extension is empty or a dot followed by clean characters. -/
theorem fileExtAux_shape (l : List Char) :
    ∀ acc, (∀ c ∈ acc, c ≠ '.' ∧ c ≠ '/') →
      fileExtAux l acc = [] ∨
      ∃ r, fileExtAux l acc = '.' :: r ∧ ∀ c ∈ r, c ≠ '.' ∧ c ≠ '/' := by
  induction l with
  | nil => intro acc _; exact Or.inl rfl
  | cons c cs ih =>
    intro acc hacc
    by_cases hsep : c = '/'
    · left; simp [fileExtAux, hsep]
    · by_cases hdot : c = '.'
      · right
        exact ⟨acc, by simp [fileExtAux, hsep, hdot], hacc⟩
      · simp only [fileExtAux, if_neg hsep, if_neg hdot]
        refine ih (c :: acc) ?_
        intro x hx
        rcases List.mem_cons.mp hx with rfl | hx
        · exact ⟨hdot, hsep⟩
        · exact hacc x hx

/-- Appending `"_"` and the extension of `name` to a dot-free, slash-free
token yields a name with the same extension as `name`. -/
theorem fileExt_token_append (tok name : String)
    (htok : ∀ c ∈ tok.data, c ≠ '.' ∧ c ≠ '/') :
    fileExt (tok ++ "_" ++ fileExt name) = fileExt name := by
  have hus : ("_" : String).data = ['_'] := by decide
  have hdata : (tok ++ "_" ++ fileExt name).data
      = tok.data ++ '_' :: (fileExt name).data := by
    rw [String.data_append, String.data_append, hus]
    simp
  have hclean : ∀ c ∈ '_' :: tok.data.reverse, c ≠ '.' ∧ c ≠ '/' := by
    intro c hc
    rcases List.mem_cons.mp hc with rfl | hc
    · exact ⟨by decide, by decide⟩
    · exact htok c (List.mem_reverse.mp hc)
  rcases fileExtAux_shape name.data.reverse []
      (by intro c hc; exact absurd hc (List.not_mem_nil c)) with hnil | ⟨r, hr, hrclean⟩
  · have hext : fileExt name = "" := by
      simp [fileExt, hnil]
    rw [hext] at hdata ⊢
    show String.mk (fileExtAux (tok ++ "_" ++ "").data.reverse []) = ""
    rw [hdata]
    have hrev : (tok.data ++ '_' :: ("" : String).data).reverse
        = '_' :: tok.data.reverse := by
      show (tok.data ++ ['_']).reverse = _
      simp
    rw [hrev, fileExtAux_clean _ [] hclean]
  · have hext : fileExt name = String.mk ('.' :: r) := by
      simp [fileExt, hr]
    rw [hext] at hdata ⊢
    show String.mk
        (fileExtAux (tok ++ "_" ++ String.mk ('.' :: r)).data.reverse []) =
      String.mk ('.' :: r)
    rw [hdata]
    have hrev : (tok.data ++ '_' :: (String.mk ('.' :: r)).data).reverse
        = r.reverse ++ '.' :: '_' :: tok.data.reverse := by
      show (tok.data ++ '_' :: '.' :: r).reverse = _
      simp
    rw [hrev, fileExtAux_to_dot r.reverse ('_' :: tok.data.reverse) []
      (by intro c hc; exact hrclean c (List.mem_reverse.mp hc))]
    simp

/-- C4 (amended: the stored name carries an underscore between the token
and the extension): every successful renamed upload stores the file under
a name consisting of the 32-character random token, an underscore, and the
original file's extension — so the extension is preserved and the stored
name differs from the original except in the degenerate case where the
original name coincides with exactly that token string — while the
returned record's original name equals the source file name. -/
theorem C4_rename_stored_name (t : Tools) (hdr : FileHeader) (dir : String)
    (ps : ℕ → ℕ) (fs : Fs) (f : UploadedFile)
    (hok : (uploadCheck t hdr dir true ps fs).1 = Except.ok f) :
    f.NewFileName = generateRandomString ps 32 ++ "_" ++ fileExt hdr.Filename ∧
    (generateRandomString ps 32).length = 32 ∧
    f.OriginalFileName = hdr.Filename ∧
    fileExt f.NewFileName = fileExt hdr.Filename ∧
    (hdr.Filename ≠ generateRandomString ps 32 ++ "_" ++ fileExt hdr.Filename →
      f.NewFileName ≠ hdr.Filename) := by
  have hf : f = { OriginalFileName := hdr.Filename,
                  NewFileName := generateRandomString ps 32 ++ "_" ++ fileExt hdr.Filename,
                  FileSize := (hdr.content.length : Int) } := by
    by_cases hne : hdr.content = []
    · rw [uploadCheck, if_pos hne] at hok
      exact absurd hok (by simp)
    · simp only [uploadCheck, if_neg hne] at hok
      rcases hb : (decide (t.AllowedFileTypes.length > 0) &&
          t.AllowedFileTypes.any fun v =>
            eqFold v (detectContentType (readBuff512 hdr.content)) || eqFold v "*")
          with _ | _
      · rw [hb] at hok
        exact absurd hok (by simp)
      · rw [hb] at hok
        simp only [Bool.not_true, if_true, if_false, Bool.false_eq_true,
          if_pos, Except.ok.injEq] at hok
        exact hok.symm
  have hsc : ∀ c ∈ sourceChars, c ≠ '.' ∧ c ≠ '/' := by decide
  have htok : ∀ c ∈ (generateRandomString ps 32).data, c ≠ '.' ∧ c ≠ '/' :=
    fun c hc => hsc c (generateRandomString_mem_sourceChars ps 32 c hc)
  subst hf
  refine ⟨rfl, generateRandomString_length ps 32, rfl, ?_, ?_⟩
  · exact fileExt_token_append (generateRandomString ps 32) hdr.Filename htok
  · intro hne hcontra
    exact hne hcontra.symm

/-- C4 witness: uploading `img.png` with the all-zero stream stores it as
the 32-character token, an underscore, and `.png`. -/
theorem C4_rename_stored_name_witness :
    ("aaaaaaaaaaaaaaaaaaaaaaaaaaaaaaaa_.png" : String) =
      generateRandomString (fun _ => 0) 32 ++ "_" ++ fileExt "img.png" ∧
    (generateRandomString (fun _ => 0) 32).length = 32 ∧
    fileExt "aaaaaaaaaaaaaaaaaaaaaaaaaaaaaaaa_.png" = fileExt "img.png" := by
  have h := C4_rename_stored_name ⟨0, ["*"], 0, false⟩ ⟨"img.png", [65]⟩ "uploads"
    (fun _ => 0) []
    { OriginalFileName := "img.png",
      NewFileName := "aaaaaaaaaaaaaaaaaaaaaaaaaaaaaaaa_.png", FileSize := 1 }
    (by decide)
  exact ⟨h.1, h.2.1, h.2.2.2.1⟩

/-- C4 counterexample: the stored name produced by the code is not the
token directly concatenated with the extension — an underscore intervenes,
so the claimed format is wrong. -/
theorem C4_rename_stored_name_cex :
    (uploadCheck ⟨0, ["*"], 0, false⟩ ⟨"img.png", [65]⟩ "uploads" true
        (fun _ => 0) []).1 =
      Except.ok { OriginalFileName := "img.png",
                  NewFileName := "aaaaaaaaaaaaaaaaaaaaaaaaaaaaaaaa_.png",
                  FileSize := 1 } ∧
    ("aaaaaaaaaaaaaaaaaaaaaaaaaaaaaaaa_.png" : String) ≠
      generateRandomString (fun _ => 0) 32 ++ fileExt "img.png" := by decide

/-- Emptiness of the read step: Go's `Read` into the 512-byte buffer
returns `io.EOF` for an empty part and `uploadCheck` forwards it. -/
theorem uploadCheck_empty (t : Tools) (name : String) (dir : String)
    (rn : Bool) (ps : ℕ → ℕ) (fs : Fs) :
    (uploadCheck t ⟨name, []⟩ dir rn ps fs).1 = Except.error (UploadErr.ioErr "EOF") ∧
    (uploadCheck t ⟨name, []⟩ dir rn ps fs).2.1 = fs := by
  simp [uploadCheck]

/-- The sniff buffer always has exactly 512 entries. -/
theorem readBuff512_length (c : List ℕ) : (readBuff512 c).length = 512 := by
  simp only [readBuff512, List.length_append, List.length_take, List.length_replicate]
  omega

/-- For content at most 512 bytes long, the sniff buffer is the content
followed by zero padding. -/
theorem readBuff512_short (c : List ℕ) (hlen : c.length ≤ 512) :
    readBuff512 c = c ++ List.replicate (512 - c.length) 0 := by
  simp only [readBuff512, List.take_of_length_le hlen]

/-- C9 (amended): the sniff step reads the first `min 512 size` bytes of
the part into a buffer whose remaining cells stay zero; an empty file makes
the upload of that file fail at the read step with the forwarded EOF error
(writing nothing); and for a non-empty file shorter than 512 bytes the
accept/reject outcome is exactly that of the zero-padded 512-byte content —
content-type detection runs over the padded buffer, not over only the bytes
present. -/
theorem C9_sniff_semantics (t : Tools) (name : String) (c : List ℕ)
    (dir : String) (rn : Bool) (ps : ℕ → ℕ) (fs : Fs) :
    (c = [] →
      (uploadCheck t ⟨name, c⟩ dir rn ps fs).1 = Except.error (UploadErr.ioErr "EOF") ∧
      (uploadCheck t ⟨name, c⟩ dir rn ps fs).2.1 = fs) ∧
    (c.length ≤ 512 → readBuff512 c = c ++ List.replicate (512 - c.length) 0) ∧
    (readBuff512 c).length = 512 ∧
    (c ≠ [] → c.length ≤ 512 → ∀ e : UploadErr,
      ((uploadCheck t ⟨name, c⟩ dir rn ps fs).1 = Except.error e ↔
        (uploadCheck t ⟨name, c ++ List.replicate (512 - c.length) 0⟩ dir rn ps fs).1 =
          Except.error e)) := by
  refine ⟨?_, readBuff512_short c, readBuff512_length c, ?_⟩
  · intro hc; subst hc; exact uploadCheck_empty t name dir rn ps fs
  · intro hne hlen e
    have hpadne : c ++ List.replicate (512 - c.length) 0 ≠ [] := by
      intro hcontra
      exact hne (List.append_eq_nil.mp hcontra).1
    have hpadlen : (c ++ List.replicate (512 - c.length) 0).length = 512 := by
      simp only [List.length_append, List.length_replicate]
      omega
    have hbuff : readBuff512 (c ++ List.replicate (512 - c.length) 0) = readBuff512 c := by
      rw [readBuff512_short _ (le_of_eq hpadlen), hpadlen,
        readBuff512_short c hlen]
      simp
    simp only [uploadCheck, if_neg hne, if_neg hpadne, hbuff]
    rcases hb : (decide (t.AllowedFileTypes.length > 0) &&
        t.AllowedFileTypes.any fun v =>
          eqFold v (detectContentType (readBuff512 c)) || eqFold v "*") with _ | _
    · simp
    · simp

/-- C9 counterexample: an empty file is rejected with an I/O error even
under the all-permissive policy (the claim says a short or empty file does
not fail at the sniffing step), and detection of a one-byte text file runs
over the zero-padded buffer, yielding the binary fallback instead of the
text type of the single byte present. -/
theorem C9_sniff_semantics_cex :
    (uploadCheck ⟨0, ["*"], 0, false⟩ ⟨"empty.txt", []⟩ "uploads" true
        (fun _ => 0) []).1 = Except.error (UploadErr.ioErr "EOF") ∧
    detectContentType (readBuff512 [65]) = "application/octet-stream" ∧
    detectContentType [65] = "text/plain; charset=utf-8" := by decide

/-- C9 witness: the padded-buffer equivalence applied to a one-byte text
file under an `image/png`-only policy. -/
theorem C9_sniff_semantics_witness :
    readBuff512 [65] = 65 :: List.replicate 511 0 ∧
    (readBuff512 [65]).length = 512 ∧
    ((uploadCheck ⟨0, ["image/png"], 0, false⟩ ⟨"a.txt", [65]⟩ "uploads" true
        (fun _ => 0) []).1 = Except.error UploadErr.typeNotAllowed ↔
      (uploadCheck ⟨0, ["image/png"], 0, false⟩
        ⟨"a.txt", ([65] : List ℕ) ++ List.replicate (512 - ([65] : List ℕ).length) 0⟩
        "uploads" true (fun _ => 0) []).1 = Except.error UploadErr.typeNotAllowed) := by
  have h := C9_sniff_semantics ⟨0, ["image/png"], 0, false⟩ "a.txt" [65] "uploads" true
    (fun _ => 0) []
  refine ⟨?_, h.2.2.1, h.2.2.2 (by decide) (by decide) UploadErr.typeNotAllowed⟩
  rw [h.2.1 (by decide)]
  decide

/-- A 63-bit prime reduces (after the `Uint64` truncation) to an alphabet
index that is divisible by neither 3 nor 7, because every such prime is
coprime to `63 = 9 * 7`. -/
theorem prime63_index (p : ℕ) (hp : Nat.Prime p) (hlo : 2 ^ 62 ≤ p)
    (hhi : p < 2 ^ 63) :
    p % 2 ^ 64 % 63 % 3 ≠ 0 ∧ p % 2 ^ 64 % 63 % 7 ≠ 0 := by
  have h64 : p % 2 ^ 64 = p := Nat.mod_eq_of_lt (lt_trans hhi (by norm_num))
  rw [h64]
  constructor
  · rw [Nat.mod_mod_of_dvd p (by norm_num : (3:ℕ) ∣ 63)]
    intro h
    have h3 : (3:ℕ) ∣ p := Nat.dvd_of_mod_eq_zero h
    have heq := (Nat.prime_dvd_prime_iff_eq Nat.prime_three hp).mp h3
    rw [← heq] at hlo
    norm_num at hlo
  · rw [Nat.mod_mod_of_dvd p (by norm_num : (7:ℕ) ∣ 63)]
    intro h
    have h7 : (7:ℕ) ∣ p := Nat.dvd_of_mod_eq_zero h
    have hq7 : Nat.Prime 7 := by norm_num
    have heq := (Nat.prime_dvd_prime_iff_eq hq7 hp).mp h7
    rw [← heq] at hlo
    norm_num at hlo

/-- Every character emitted under a stream of 63-bit primes sits at an
alphabet index divisible by neither 3 nor 7. -/
theorem random_char_index (ps : ℕ → ℕ)
    (hps : ∀ i, Nat.Prime (ps i) ∧ 2 ^ 62 ≤ ps i ∧ ps i < 2 ^ 63) (n : ℕ) :
    ∀ c ∈ (generateRandomString ps n).data,
      ∃ k, ∃ hk : k < sourceChars.length,
        c = sourceChars.get ⟨k, hk⟩ ∧ k % 3 ≠ 0 ∧ k % 7 ≠ 0 := by
  intro c hc
  simp only [generateRandomString] at hc
  rcases List.mem_map.mp hc with ⟨i, _, rfl⟩
  refine ⟨ps i % 2 ^ 64 % sourceChars.length, Nat.mod_lt _ (by decide), rfl, ?_⟩
  have hlen : sourceChars.length = 63 := by decide
  rw [hlen]
  rcases hps i with ⟨hp, hlo, hhi⟩
  exact prime63_index (ps i) hp hlo hhi

/-- C10: the alphabet has 63 characters; under the code's sampling (a
63-bit random prime reduced modulo 63) every output character sits at an
index divisible by neither 3 nor 7 — because such primes are coprime to
`63 = 9 * 7` — so only the 36 such indices are reachable, and in particular
the characters at indices divisible by 3 or 7, such as `'a'`, `'d'`, `'g'`
and `'h'`, never occur in any output. -/
theorem C10_reachable_characters :
    sourceChars.length = 63 ∧
    ((List.range 63).filter fun i => decide (i % 3 ≠ 0 ∧ i % 7 ≠ 0)).length = 36 ∧
    (∀ ps : ℕ → ℕ,
      (∀ i, Nat.Prime (ps i) ∧ 2 ^ 62 ≤ ps i ∧ ps i < 2 ^ 63) →
      ∀ n, ∀ c ∈ (generateRandomString ps n).data,
        ∃ k, ∃ hk : k < sourceChars.length,
          c = sourceChars.get ⟨k, hk⟩ ∧ k % 3 ≠ 0 ∧ k % 7 ≠ 0) ∧
    (∀ ps : ℕ → ℕ,
      (∀ i, Nat.Prime (ps i) ∧ 2 ^ 62 ≤ ps i ∧ ps i < 2 ^ 63) →
      ∀ n, 'a' ∉ (generateRandomString ps n).data ∧
           'd' ∉ (generateRandomString ps n).data ∧
           'g' ∉ (generateRandomString ps n).data ∧
           'h' ∉ (generateRandomString ps n).data) := by
  have hfin : ∀ j : Fin sourceChars.length,
      (sourceChars.get j = 'a' → j.val % 3 = 0) ∧
      (sourceChars.get j = 'd' → j.val % 3 = 0) ∧
      (sourceChars.get j = 'g' → j.val % 3 = 0) ∧
      (sourceChars.get j = 'h' → j.val % 7 = 0) := by decide
  refine ⟨by decide, by decide, random_char_index, ?_⟩
  intro ps hps n
  refine ⟨?_, ?_, ?_, ?_⟩ <;> intro hc
  · rcases random_char_index ps hps n 'a' hc with ⟨k, hk, heq, h3, _⟩
    exact h3 ((hfin ⟨k, hk⟩).1 heq.symm)
  · rcases random_char_index ps hps n 'd' hc with ⟨k, hk, heq, h3, _⟩
    exact h3 ((hfin ⟨k, hk⟩).2.1 heq.symm)
  · rcases random_char_index ps hps n 'g' hc with ⟨k, hk, heq, h3, _⟩
    exact h3 ((hfin ⟨k, hk⟩).2.2.1 heq.symm)
  · rcases random_char_index ps hps n 'h' hc with ⟨k, hk, heq, _, h7⟩
    exact h7 ((hfin ⟨k, hk⟩).2.2.2 heq.symm)

/-- C10 witness: with the concrete 63-bit prime `p63` drawn at every
position, the letter `'a'` never appears in a generated string. -/
theorem C10_reachable_characters_witness :
    'a' ∉ (generateRandomString (fun _ => p63) 5).data := by
  have h := C10_reachable_characters.2.2.2 (fun _ => p63)
    (fun _ => ⟨p63_prime, p63_range.1, p63_range.2⟩) 5
  exact h.1

/-- Every character emitted by the run replacement is either a slug
character kept from the input or a replacement hyphen. -/
theorem mem_replaceRunsAux :
    ∀ (l : List Char) (b : Bool) (c : Char), c ∈ replaceRunsAux b l →
      isSlugChar c = true ∨ c = '-' := by
  intro l
  induction l with
  | nil => intro b c hc; simp [replaceRunsAux] at hc
  | cons a as ih =>
    intro b c hc
    by_cases ha : isSlugChar a = true
    · rw [replaceRunsAux, if_pos ha] at hc
      rcases List.mem_cons.mp hc with rfl | hc
      · exact Or.inl ha
      · exact ih false c hc
    · rw [replaceRunsAux, if_neg ha] at hc
      cases b with
      | true => exact ih true c hc
      | false =>
        rcases List.mem_cons.mp (by simpa using hc) with rfl | hc
        · exact Or.inr rfl
        · exact ih true c hc

/-- A slug character survives the run replacement exactly when it occurs in
the input. -/
theorem good_mem_replaceRunsAux (c : Char) (hgood : isSlugChar c = true) :
    ∀ (l : List Char) (b : Bool), c ∈ replaceRunsAux b l ↔ c ∈ l := by
  intro l
  induction l with
  | nil => intro b; simp [replaceRunsAux]
  | cons a as ih =>
    intro b
    by_cases ha : isSlugChar a = true
    · rw [replaceRunsAux, if_pos ha]
      simp only [List.mem_cons]
      rw [ih false]
    · have hca : c ≠ a := fun hc => ha (hc ▸ hgood)
      have hcd : c ≠ '-' := by
        intro hc
        rw [hc] at hgood
        exact absurd hgood (by decide)
      rw [replaceRunsAux, if_neg ha]
      cases b with
      | true =>
        show c ∈ replaceRunsAux true as ↔ c ∈ a :: as
        rw [ih true]
        simp [List.mem_cons, hca]
      | false =>
        show c ∈ '-' :: replaceRunsAux true as ↔ c ∈ a :: as
        simp only [List.mem_cons]
        rw [ih true]
        simp [hca, hcd]

/-- The worker in in-run state emits nothing before the next slug
character: its output is empty or starts with a slug character. -/
theorem replaceRunsAux_true_head :
    ∀ l : List Char, replaceRunsAux true l = [] ∨
      ∃ c cs', replaceRunsAux true l = c :: cs' ∧ isSlugChar c = true := by
  intro l
  induction l with
  | nil => exact Or.inl rfl
  | cons a as ih =>
    by_cases ha : isSlugChar a = true
    · exact Or.inr ⟨a, replaceRunsAux false as, by rw [replaceRunsAux, if_pos ha], ha⟩
    · rw [replaceRunsAux, if_neg ha]
      exact ih

/-- The run replacement never emits two adjacent hyphens. -/
theorem chain_replaceRunsAux :
    ∀ (l : List Char) (b : Bool),
      List.Chain' (fun a b => a ≠ '-' ∨ b ≠ '-') (replaceRunsAux b l) := by
  intro l
  induction l with
  | nil => intro b; simp [replaceRunsAux]
  | cons a as ih =>
    intro b
    by_cases ha : isSlugChar a = true
    · rw [replaceRunsAux, if_pos ha]
      rw [List.chain'_cons']
      refine ⟨?_, ih false⟩
      intro y _
      left
      intro hc
      rw [hc] at ha
      exact absurd ha (by decide)
    · rw [replaceRunsAux, if_neg ha]
      cases b with
      | true => exact ih true
      | false =>
        simp only [Bool.false_eq_true, if_false]
        rw [List.chain'_cons']
        refine ⟨?_, ih true⟩
        intro y hy
        rcases replaceRunsAux_true_head as with hnil | ⟨c, cs', heq, hcgood⟩
        · rw [hnil] at hy; simp at hy
        · rw [heq] at hy
          simp only [List.head?_cons, Option.mem_def, Option.some.injEq] at hy
          right
          intro hc
          rw [hy, hc] at hcgood
          exact absurd hcgood (by decide)

/-- On input without slug characters the in-run worker emits nothing. -/
theorem replaceRunsAux_true_allBad :
    ∀ l : List Char, (∀ c ∈ l, isSlugChar c = false) →
      replaceRunsAux true l = [] := by
  intro l
  induction l with
  | nil => intro _; rfl
  | cons a as ih =>
    intro hbad
    have ha := hbad a (List.mem_cons_self _ _)
    rw [replaceRunsAux, if_neg (by simp [ha])]
    exact ih fun c hc => hbad c (List.mem_cons_of_mem _ hc)

/-- A member that fails the predicate survives `dropWhile`. -/
theorem mem_dropWhile_of_not (p : Char → Bool) :
    ∀ (l : List Char) (c : Char), c ∈ l → p c = false → c ∈ l.dropWhile p := by
  intro l
  induction l with
  | nil => intro c hc _; simp at hc
  | cons a as ih =>
    intro c hc hp
    by_cases ha : p a = true
    · rw [List.dropWhile_cons_of_pos ha]
      rcases List.mem_cons.mp hc with rfl | hc
      · rw [hp] at ha; cases ha
      · exact ih c hc hp
    · rw [List.dropWhile_cons_of_neg ha]
      exact hc

/-- The head of a `dropWhile` result fails the predicate. -/
theorem dropWhile_head_false (p : Char → Bool) :
    ∀ (l : List Char) (c : Char) (cs' : List Char),
      l.dropWhile p = c :: cs' → p c = false := by
  intro l
  induction l with
  | nil => intro c cs' h; simp [List.dropWhile] at h
  | cons a as ih =>
    intro c cs' h
    by_cases ha : p a = true
    · rw [List.dropWhile_cons_of_pos ha] at h
      exact ih c cs' h
    · rw [List.dropWhile_cons_of_neg ha] at h
      cases h
      simpa using ha

/-- Right-trim decomposition: a list is its right-trimmed part followed by
a block of trimmed characters, all satisfying the predicate. -/
theorem trimRight_decomp (p : Char → Bool) (x : List Char) :
    ∃ y, x = (x.reverse.dropWhile p).reverse ++ y ∧ ∀ c ∈ y, p c = true := by
  refine ⟨(x.reverse.takeWhile p).reverse, ?_, ?_⟩
  · conv_lhs => rw [← List.reverse_reverse x,
      ← List.takeWhile_append_dropWhile (p := p) (l := x.reverse)]
    rw [List.reverse_append]
  · intro c hc
    exact List.mem_takeWhile_imp (List.mem_reverse.mp hc)

/-- A non-hyphen member of a list survives the hyphen trim. -/
theorem mem_trimDash (l : List Char) (c : Char) (hc : c ∈ l)
    (hcd : ¬ c = '-') : c ∈ trimDash l := by
  have h1 : c ∈ l.dropWhile fun x => x = '-' :=
    mem_dropWhile_of_not _ l c hc (by simp [hcd])
  rcases trimRight_decomp (fun x => decide (x = '-'))
      (l.dropWhile fun x => x = '-') with ⟨y, hxy, hy⟩
  rw [hxy] at h1
  rcases List.mem_append.mp h1 with h | h
  · rw [trimDash]
    exact List.mem_reverse.mpr (List.mem_reverse.mp (by simpa using h))
  · exact absurd (by simpa using hy c h) hcd

/-- Members of the trimmed slug come from the run replacement. -/
theorem mem_of_mem_trimDash (l : List Char) (c : Char) (hc : c ∈ trimDash l) :
    c ∈ l := by
  rw [trimDash] at hc
  have h1 := List.mem_reverse.mp hc
  have h2 := (List.dropWhile_sublist _).mem h1
  have h3 := List.mem_reverse.mp h2
  exact (List.dropWhile_sublist _).mem h3

/-- The trimmed slug of an input without slug characters is empty. -/
theorem trimDash_replaceRuns_allBad (l : List Char)
    (hbad : ∀ c ∈ l, isSlugChar c = false) :
    trimDash (replaceRuns l) = [] := by
  cases l with
  | nil => rfl
  | cons a as =>
    have ha := hbad a (List.mem_cons_self _ _)
    have hall : replaceRunsAux true as = [] :=
      replaceRunsAux_true_allBad as fun c hc => hbad c (List.mem_cons_of_mem _ hc)
    rw [replaceRuns, replaceRunsAux, if_neg (by simp [ha])]
    simp only [Bool.false_eq_true, if_false, hall]
    rfl

/-- The trimmed slug does not start with a hyphen. -/
theorem trimDash_head (l : List Char) (c : Char) (cs' : List Char)
    (h : trimDash l = c :: cs') : ¬ c = '-' := by
  rcases trimRight_decomp (fun x => decide (x = '-'))
      (l.dropWhile fun x => x = '-') with ⟨y, hxy, _⟩
  rw [trimDash] at h
  rw [h] at hxy
  intro hcd
  have hhead := dropWhile_head_false (fun x => decide (x = '-')) l c (cs' ++ y)
    (by rw [hxy, List.cons_append])
  rw [hcd] at hhead
  simp at hhead

/-- The trimmed slug does not end with a hyphen. -/
theorem trimDash_getLast (l : List Char) (c : Char)
    (h : (trimDash l).getLast? = some c) : ¬ c = '-' := by
  rw [trimDash, List.getLast?_reverse] at h
  cases hd : (l.dropWhile fun x => x = '-').reverse.dropWhile fun x => x = '-' with
  | nil => rw [hd] at h; simp at h
  | cons a as =>
    rw [hd] at h
    simp only [List.head?_cons, Option.some.injEq] at h
    subst h
    have hhead := dropWhile_head_false _ _ _ _ hd
    intro hcd
    rw [hcd] at hhead
    simp at hhead

/-- Hyphen-trimming preserves the absence of adjacent hyphens. -/
theorem trimDash_chain (l : List Char)
    (hl : List.Chain' (fun a b => a ≠ '-' ∨ b ≠ '-') l) :
    List.Chain' (fun a b => a ≠ '-' ∨ b ≠ '-') (trimDash l) := by
  have hA : List.Chain' (fun a b => a ≠ '-' ∨ b ≠ '-')
      (l.dropWhile fun x => x = '-') := by
    have hdecomp := List.takeWhile_append_dropWhile
      (p := fun x => decide (x = '-')) (l := l)
    rw [← hdecomp] at hl
    exact (List.chain'_append.mp hl).2.1
  rcases trimRight_decomp (fun x => decide (x = '-'))
      (l.dropWhile fun x => x = '-') with ⟨y, hxy, _⟩
  rw [hxy] at hA
  rw [trimDash]
  exact (List.chain'_append.mp hA).1

/-- C8: `ConvertToSlug` lowercases the input, replaces each run of
characters outside `[a-z0-9]` with a single hyphen and trims outer
hyphens; it errors exactly when the input is empty or nothing remains
(no slug character in the lowercased input); `"Hello, World!"` maps to
`"hello-world"`, and empty or all-non-alphanumeric inputs error.  Every
successful output is non-empty, consists only of slug characters and
isolated hyphens, and neither starts nor ends with a hyphen. -/
theorem C8_slug_characterisation :
    ConvertToSlug "Hello, World!" = Except.ok "hello-world" ∧
    ConvertToSlug "" = Except.error "string is empty" ∧
    ConvertToSlug "你好世界" = Except.error "not valid string characters" ∧
    (∀ s : String, (∃ r, ConvertToSlug s = Except.ok r) ↔
      (¬ s = "" ∧ ∃ c ∈ (lowerStr s).data, isSlugChar c = true)) ∧
    (∀ (s r : String), ConvertToSlug s = Except.ok r →
      r.data ≠ [] ∧
      (∀ c ∈ r.data, isSlugChar c = true ∨ c = '-') ∧
      (∀ c cs', r.data = c :: cs' → ¬ c = '-') ∧
      (∀ c, r.data.getLast? = some c → ¬ c = '-') ∧
      List.Chain' (fun a b => a ≠ '-' ∨ b ≠ '-') r.data) := by
  refine ⟨by decide, by decide, by decide, ?_, ?_⟩
  · intro s
    constructor
    · rintro ⟨r, hr⟩
      simp only [ConvertToSlug] at hr
      by_cases hs : s = ""
      · rw [if_pos hs] at hr; simp at hr
      · rw [if_neg hs] at hr
        refine ⟨hs, ?_⟩
        by_cases hz : (String.mk (trimDash (replaceRuns (lowerStr s).data))).length = 0
        · rw [if_pos hz] at hr; simp at hr
        · cases hd : trimDash (replaceRuns (lowerStr s).data) with
          | nil =>
            exact absurd (by rw [hd]; rfl) hz
          | cons c cs' =>
            have hcd : ¬ c = '-' := trimDash_head _ c cs' hd
            have hcmem : c ∈ replaceRuns (lowerStr s).data :=
              mem_of_mem_trimDash _ c (by rw [hd]; exact List.mem_cons_self _ _)
            have hgood : isSlugChar c = true := by
              rcases mem_replaceRunsAux _ false c hcmem with h | h
              · exact h
              · exact absurd h hcd
            exact ⟨c, (good_mem_replaceRunsAux c hgood _ false).mp hcmem, hgood⟩
    · rintro ⟨hs, c, hcmem, hcgood⟩
      have hcd : ¬ c = '-' := by
        intro hcontra; rw [hcontra] at hcgood; exact absurd hcgood (by decide)
      have h1 : c ∈ replaceRuns (lowerStr s).data :=
        (good_mem_replaceRunsAux c hcgood _ false).mpr hcmem
      have h2 : c ∈ trimDash (replaceRuns (lowerStr s).data) :=
        mem_trimDash _ c h1 hcd
      have hnz : ¬ (String.mk (trimDash (replaceRuns (lowerStr s).data))).length = 0 := by
        intro hz
        have hnil : trimDash (replaceRuns (lowerStr s).data) = [] :=
          List.length_eq_zero.mp (by rw [← String.length_mk]; exact hz)
        rw [hnil] at h2
        simp at h2
      refine ⟨String.mk (trimDash (replaceRuns (lowerStr s).data)), ?_⟩
      simp only [ConvertToSlug]
      rw [if_neg hs, if_neg hnz]
  · intro s r hr
    simp only [ConvertToSlug] at hr
    by_cases hs : s = ""
    · rw [if_pos hs] at hr; simp at hr
    · rw [if_neg hs] at hr
      by_cases hz : (String.mk (trimDash (replaceRuns (lowerStr s).data))).length = 0
      · rw [if_pos hz] at hr; simp at hr
      · rw [if_neg hz] at hr
        have hreq : r = String.mk (trimDash (replaceRuns (lowerStr s).data)) := by
          injection hr with h
          exact h.symm
        subst hreq
        refine ⟨?_, ?_, ?_, ?_, ?_⟩
        · intro hnil
          apply hz
          rw [show trimDash (replaceRuns (lowerStr s).data) = []
            from by simpa using hnil]
          rfl
        · intro c hcm
          exact mem_replaceRunsAux _ false c (mem_of_mem_trimDash _ c hcm)
        · intro c cs' hd
          exact trimDash_head _ c cs' hd
        · intro c hlast
          exact trimDash_getLast _ c hlast
        · exact trimDash_chain _ (chain_replaceRunsAux _ false)

/-- C8 witness: the characterisation applied to the spec's example
`"Hello, World!" → "hello-world"`. -/
theorem C8_slug_characterisation_witness :
    ("hello-world" : String).data ≠ [] ∧
    (∀ c ∈ ("hello-world" : String).data, isSlugChar c = true ∨ c = '-') ∧
    (∀ c cs', ("hello-world" : String).data = c :: cs' → ¬ c = '-') ∧
    (∀ c, ("hello-world" : String).data.getLast? = some c → ¬ c = '-') ∧
    List.Chain' (fun a b => a ≠ '-' ∨ b ≠ '-') ("hello-world" : String).data := by
  exact C8_slug_characterisation.2.2.2.2 "Hello, World!" "hello-world" (by decide)

/-- Whether `uploadCheck` fails, and with which error, depends only on the
policy and the file — not on the file system or the prime stream. -/
theorem uploadCheck_error_indep (t : Tools) (hdr : FileHeader) (dir : String)
    (rn : Bool) (ps ps' : ℕ → ℕ) (fs fs' : Fs) (e : UploadErr) :
    ((uploadCheck t hdr dir rn ps fs).1 = Except.error e ↔
      (uploadCheck t hdr dir rn ps' fs').1 = Except.error e) := by
  simp only [uploadCheck]
  split
  · exact Iff.rfl
  · split
    · exact Iff.rfl
    · simp

/-- Whether `uploadCheck` succeeds depends only on the policy and the
file. -/
theorem uploadCheck_isOk_indep (t : Tools) (hdr : FileHeader) (dir : String)
    (rn : Bool) (ps ps' : ℕ → ℕ) (fs fs' : Fs) :
    (uploadCheck t hdr dir rn ps fs).1.isOk =
      (uploadCheck t hdr dir rn ps' fs').1.isOk := by
  simp only [uploadCheck]
  split
  · rfl
  · split
    · rfl
    · rfl

/-- An `Except` is `isOk` exactly when it is an `ok`. -/
theorem except_isOk_iff {ε α : Type} (x : Except ε α) :
    x.isOk = true ↔ ∃ a, x = Except.ok a := by
  cases x <;> simp [Except.isOk, Except.toBool]

/-- If the `k`-th header (1-based) is the first one `uploadCheck` rejects,
the `UploadFiles` loop stops there: the whole run equals the run on the
first `k` headers alone, the records are exactly those of the first `k - 1`
headers, the returned error is the `k`-th header's error, and exactly
`k - 1` records are appended. -/
theorem processFiles_first_error (t : Tools) (dir : String) (rn : Bool)
    (psR : ℕ → ℕ) (fsR : Fs) :
    ∀ (k : ℕ) (hdrs : List FileHeader) (fs : Fs) (ps : ℕ → ℕ)
      (acc : List UploadedFile) (e : UploadErr),
      1 ≤ k → k ≤ hdrs.length →
      (∀ j, j < k - 1 →
        (uploadCheck t (hdrs.getD j default) dir rn psR fsR).1.isOk = true) →
      (uploadCheck t (hdrs.getD (k - 1) default) dir rn psR fsR).1 = Except.error e →
      processFiles t dir rn hdrs fs ps acc
          = processFiles t dir rn (hdrs.take k) fs ps acc ∧
      (processFiles t dir rn hdrs fs ps acc).1
          = (processFiles t dir rn (hdrs.take (k - 1)) fs ps acc).1 ∧
      (processFiles t dir rn hdrs fs ps acc).2.1 = some e ∧
      (processFiles t dir rn hdrs fs ps acc).1.length = acc.length + (k - 1) := by
  intro k
  induction k with
  | zero =>
    intro hdrs fs ps acc e h1 _ _ _
    exact absurd h1 (by omega)
  | succ k ih =>
    intro hdrs fs ps acc e _ hk2 hok herr
    simp only [Nat.add_sub_cancel] at hok herr ⊢
    match hdrs with
    | [] => simp at hk2
    | h :: rest =>
      cases k with
      | zero =>
        have herr' : (uploadCheck t h dir rn ps fs).1 = Except.error e :=
          (uploadCheck_error_indep t h dir rn psR ps fsR fs e).mp herr
        have hstep : processFiles t dir rn (h :: rest) fs ps acc
            = (acc, some e, (uploadCheck t h dir rn ps fs).2.1,
                (uploadCheck t h dir rn ps fs).2.2) := by
          rw [processFiles_cons, herr']
        have hstep1 : processFiles t dir rn [h] fs ps acc
            = (acc, some e, (uploadCheck t h dir rn ps fs).2.1,
                (uploadCheck t h dir rn ps fs).2.2) := by
          rw [processFiles_cons, herr']
        refine ⟨?_, ?_, ?_, ?_⟩
        · rw [hstep, List.take_succ_cons, List.take_zero, hstep1]
        · rw [hstep, List.take_zero]
          simp [processFiles]
        · rw [hstep]
        · rw [hstep]
          simp
      | succ n =>
        have hok0 : (uploadCheck t h dir rn ps fs).1.isOk = true := by
          rw [uploadCheck_isOk_indep t h dir rn ps psR fs fsR]
          exact hok 0 (by omega)
        rcases (except_isOk_iff _).mp hok0 with ⟨f, hf⟩
        have hstep : ∀ l : List FileHeader,
            processFiles t dir rn (h :: l) fs ps acc
              = processFiles t dir rn l (uploadCheck t h dir rn ps fs).2.1
                  (uploadCheck t h dir rn ps fs).2.2 (acc ++ [f]) := by
          intro l
          rw [processFiles_cons, hf]
        have hlen2 : n + 1 ≤ rest.length := by
          simp only [List.length_cons] at hk2
          omega
        have hok' : ∀ j, j < n →
            (uploadCheck t (rest.getD j default) dir rn psR fsR).1.isOk = true := by
          intro j hj
          have hj1 := hok (j + 1) (by omega)
          simpa using hj1
        have herr' : (uploadCheck t (rest.getD n default) dir rn psR fsR).1
            = Except.error e := by
          simpa using herr
        have IH := ih rest (uploadCheck t h dir rn ps fs).2.1
          (uploadCheck t h dir rn ps fs).2.2 (acc ++ [f]) e (by omega) hlen2 hok' herr'
        simp only [Nat.add_sub_cancel] at IH
        refine ⟨?_, ?_, ?_, ?_⟩
        · rw [hstep rest, List.take_succ_cons, hstep (rest.take (n + 1))]
          exact IH.1
        · rw [hstep rest, List.take_succ_cons, hstep (rest.take n)]
          exact IH.2.1
        · rw [hstep rest]
          exact IH.2.2.1
        · rw [hstep rest, IH.2.2.2]
          simp only [List.length_append, List.length_singleton]
          omega

/-- C3: assuming the multipart payload parses, if the `k`-th file of the
batch (1-based, in decoder order over the flattened form groups) is the
first that `uploadCheck` rejects, `UploadFiles` returns exactly the records
of the first `k - 1` files together with the triggering error, and the
whole call (records, error, resulting file system) equals the call on the
first `k` files alone — the files after the `k`-th are never opened or
written. -/
theorem C3_first_failure (t : Tools) (r : Request) (dir : String)
    (rename : List Bool) (ps : ℕ → ℕ) (fs : Fs) (k : ℕ) (e : UploadErr)
    (hparse : (r.bodySize : Int) ≤ (withDefaultSize t).MaxFileSize)
    (hk1 : 1 ≤ k) (hk2 : k ≤ r.formFiles.flatten.length)
    (hok : ∀ j, j < k - 1 →
      (uploadCheck (withDefaultSize t) (r.formFiles.flatten.getD j default) dir
          (rename.headD true) ps fs).1.isOk = true)
    (herr : (uploadCheck (withDefaultSize t)
        (r.formFiles.flatten.getD (k - 1) default) dir
        (rename.headD true) ps fs).1 = Except.error e) :
    (UploadFiles t r dir rename ps fs).err = some e ∧
    (UploadFiles t r dir rename ps fs).files.length = k - 1 ∧
    UploadFiles t r dir rename ps fs
      = UploadFiles t { r with formFiles := [r.formFiles.flatten.take k] }
          dir rename ps fs ∧
    (UploadFiles t r dir rename ps fs).files
      = (UploadFiles t { r with formFiles := [r.formFiles.flatten.take (k - 1)] }
          dir rename ps fs).files := by
  have hmain := processFiles_first_error (withDefaultSize t) dir (rename.headD true)
    ps fs k r.formFiles.flatten fs ps [] e hk1 hk2 hok herr
  have hA := UploadFiles_parse_ok t r dir rename ps fs hparse
  have hB := UploadFiles_parse_ok t { r with formFiles := [r.formFiles.flatten.take k] }
    dir rename ps fs hparse
  have hC := UploadFiles_parse_ok t
    { r with formFiles := [r.formFiles.flatten.take (k - 1)] } dir rename ps fs hparse
  have hflatB : ([r.formFiles.flatten.take k] : List (List FileHeader)).flatten
      = r.formFiles.flatten.take k := by simp
  have hflatC : ([r.formFiles.flatten.take (k - 1)] : List (List FileHeader)).flatten
      = r.formFiles.flatten.take (k - 1) := by simp
  refine ⟨?_, ?_, ?_, ?_⟩
  · rw [hA]
    exact hmain.2.2.1
  · rw [hA]
    rw [hmain.2.2.2]
    simp
  · rw [hA, hB]
    simp only [hflatB]
    rw [hmain.1]
  · rw [hA, hC]
    simp only [hflatC]
    exact hmain.2.1

/-- C3 witness: the spec's three-file example — a batch whose second file
(a PNG) is disallowed under an `application/octet-stream`-only policy
returns exactly one record plus the type error, and equals the run on the
first two files alone. -/
theorem C3_first_failure_witness :
    (UploadFiles ⟨0, ["application/octet-stream"], 0, false⟩
        ⟨100, [[⟨"a.bin", [65]⟩], [⟨"img.png", [137, 80, 78, 71, 13, 10, 26, 10]⟩],
               [⟨"c.bin", [66]⟩]]⟩ "uploads" [false] (fun _ => 0) []).err =
      some UploadErr.typeNotAllowed ∧
    (UploadFiles ⟨0, ["application/octet-stream"], 0, false⟩
        ⟨100, [[⟨"a.bin", [65]⟩], [⟨"img.png", [137, 80, 78, 71, 13, 10, 26, 10]⟩],
               [⟨"c.bin", [66]⟩]]⟩ "uploads" [false] (fun _ => 0) []).files.length = 1 := by
  have h := C3_first_failure ⟨0, ["application/octet-stream"], 0, false⟩
    ⟨100, [[⟨"a.bin", [65]⟩], [⟨"img.png", [137, 80, 78, 71, 13, 10, 26, 10]⟩],
           [⟨"c.bin", [66]⟩]]⟩ "uploads" [false] (fun _ => 0) [] 2
    UploadErr.typeNotAllowed (by decide) (by decide) (by decide)
    (by intro j hj
        have hj0 : j = 0 := by omega
        subst hj0
        decide)
    (by decide)
  exact ⟨h.1, h.2.1⟩

end Gorigumi
